import Mathlib

/-!
Shallow embedding of the LeekDuck event-detail scraper
(`src/pages/detailed/event.js`) and verification of its specification.

The document is modelled, following the spec's design notes, as an ordered
sequence of typed nodes (heading / list / paragraph / other).  JavaScript
string operations (`toLowerCase`, `includes`, `trim`, the fixed regular
expressions of the scraper) are embedded as executable functions over
`List Char`, faithful to the ECMAScript leftmost-match / greedy-backtracking
semantics of each concrete pattern appearing in the source.
-/

namespace ScrapedDuck

/-! ## JavaScript string primitives -/

/-- The characters JavaScript's `\s` (and `trim`) treat as whitespace,
restricted to the ASCII range that can occur in the scraped text. -/
def jsWs (c : Char) : Bool :=
  c = ' ' || c = '\t' || c = '\n' || c = '\r' || c = Char.ofNat 11 || c = Char.ofNat 12

/-- The characters matched by JavaScript's `.` (no `s` flag): anything but a
line terminator. -/
def jsDot (c : Char) : Bool :=
  !(c = '\n' || c = '\r' || c.toNat = 0x2028 || c.toNat = 0x2029)

/-- JavaScript `\w`: ASCII letters, digits and underscore. -/
def isWordChar (c : Char) : Bool :=
  c.isAlpha || c.isDigit || c = '_'

/-- Is `p` a prefix of `l` (character-exact)? -/
def isPrefixL : List Char → List Char → Bool
  | [], _ => true
  | _ :: _, [] => false
  | p :: ps, h :: hs => p = h && isPrefixL ps hs

/-- Is `pat` an infix (contiguous substring) of `l`?  JavaScript
`String.prototype.includes`. -/
def isInfixL (pat : List Char) : List Char → Bool
  | [] => isPrefixL pat []
  | h :: hs => isPrefixL pat (h :: hs) || isInfixL pat hs

/-- JavaScript `hay.includes(pat)`. -/
def strIncludes (hay pat : String) : Bool :=
  isInfixL pat.data hay.data

/-- JavaScript `s.toLowerCase()` (ASCII). -/
def lowerStr (s : String) : String :=
  ⟨s.data.map Char.toLower⟩

/-- JavaScript `s.trim()`. -/
def trimL (l : List Char) : List Char :=
  ((l.dropWhile jsWs).reverse.dropWhile jsWs).reverse

/-- JavaScript `s.trim()` on `String`. -/
def jsTrim (s : String) : String :=
  ⟨trimL s.data⟩

/-- Case-insensitive prefix match: if the pattern `pat` is a prefix of `l` up
to ASCII case, return the rest of `l`. -/
def ciPrefixL : List Char → List Char → Option (List Char)
  | [], rest => some rest
  | _ :: _, [] => none
  | p :: ps, h :: hs => if p.toLower = h.toLower then ciPrefixL ps hs else none

/-- Case-insensitive literal match at the start of `l`: returns the consumed
characters of `l` (original case) and the remainder. -/
def matchLitCI (pat : List Char) (l : List Char) : Option (List Char × List Char) :=
  match ciPrefixL pat l with
  | some rest => some (l.take pat.length, rest)
  | none => none

/-- Maximal run of characters satisfying `f`: `(run, rest)`. -/
def takeRun (f : Char → Bool) (l : List Char) : List Char × List Char :=
  (l.takeWhile f, l.dropWhile f)

/-! ## TierClassifier — `getTierFromRaidType` (event.js lines 152–167) -/

/-- `getTierFromRaidType(raidType)`: maps a free-text raid-type phrase to one
of the closed tier labels, or `none`.  A `none` or empty (JS-falsy) input
yields `none`. -/
def getTierFromRaidType (raidType : Option String) : Option String :=
  match raidType with
  | none => none
  | some rt =>
    if rt = "" then none
    else
      let l := lowerStr rt
      if strIncludes l "one-star" || strIncludes l "1-star" then some "Tier 1"
      else if strIncludes l "three-star" || strIncludes l "3-star" then some "Tier 3"
      else if strIncludes l "five-star" || strIncludes l "5-star" then some "Tier 5"
      else if strIncludes l "six-star" || strIncludes l "6-star" then some "Tier 6"
      else if strIncludes l "mega" then some "Mega"
      else if strIncludes l "primal" then some "Primal"
      else if strIncludes l "shadow" && !(strIncludes l "star") then some "Shadow"
      else none

/-- The closed enumeration of possible `raidType` values of a boss record. -/
def tierOpts : List (Option String) :=
  [none, some "Tier 1", some "Tier 3", some "Tier 5", some "Tier 6",
   some "Mega", some "Primal", some "Shadow"]

theorem getTier_mem_tierOpts (rt : Option String) :
    getTierFromRaidType rt ∈ tierOpts := by
  cases rt with
  | none => simp [getTierFromRaidType, tierOpts]
  | some s =>
    simp only [getTierFromRaidType]
    repeat' split
    all_goals simp [tierOpts]

example : getTierFromRaidType (some "Five-Star Shadow Raids") = some "Tier 5" := by decide

example : getTierFromRaidType (some "Shadow Raids") = some "Shadow" := by decide

/-! ## Embedded regular expressions

Each of the scraper's fixed regular expressions is compiled by hand to an
executable matcher with ECMAScript semantics (leftmost match, greedy
quantifiers with backtracking, `/i` where flagged). -/

/-- The seven weekday names of `dayPattern`. -/
def dayNames : List String :=
  ["Monday", "Tuesday", "Wednesday", "Thursday", "Friday", "Saturday", "Sunday"]

/-- Match one of the weekday names case-insensitively at the start of `l`. -/
def matchDayName (l : List Char) : Option (List Char × List Char) :=
  dayNames.findSome? (fun a => matchLitCI a.data l)

/-- Anchored match of `(Monday|…|Sunday),\s+\w+\s+\d+` (case-insensitive) at
the start of `l`; returns `(matchedText, rest)`.  Adjacent character classes
are disjoint, so greedy maximal-munch is exact. -/
def matchDateAt (l : List Char) : Option (List Char × List Char) :=
  match matchDayName l with
  | none => none
  | some (day, r1) =>
    match r1 with
    | ',' :: r2 =>
      let (ws1, r3) := takeRun jsWs r2
      if ws1 = [] then none else
      let (w, r4) := takeRun isWordChar r3
      if w = [] then none else
      let (ws2, r5) := takeRun jsWs r4
      if ws2 = [] then none else
      let (dg, r6) := takeRun Char.isDigit r5
      if dg = [] then none else
      some (day ++ ',' :: (ws1 ++ w ++ ws2 ++ dg), r6)
    | _ => none

/-- Unanchored `test` of the date pattern: does it match anywhere in `l`? -/
def testDateAnywhere : List Char → Bool
  | [] => (matchDateAt []).isSome
  | l@(_ :: t) => (matchDateAt l).isSome || testDateAnywhere t

/-- Match `\s*(.+)` (greedy `\s*` with backtracking into a greedy `.+`),
returning group 1. -/
def matchWsDotPlus : List Char → Option (List Char)
  | [] => none
  | c :: rest =>
    if jsWs c then
      match matchWsDotPlus rest with
      | some g => some g
      | none => if jsDot c then some (c :: rest.takeWhile jsDot) else none
    else if jsDot c then some (c :: rest.takeWhile jsDot) else none

/-- Leftmost match of `([^:]+):\s*(.+)`: returns `(group1, group2)`.
`[^:]+` necessarily runs to the first colon after the match start. -/
def matchTypeColonDate : List Char → Option (List Char × List Char)
  | [] => none
  | c :: rest =>
    if c = ':' then matchTypeColonDate rest
    else
      let g1 := (c :: rest).takeWhile (fun x => x ≠ ':')
      match (c :: rest).dropWhile (fun x => x ≠ ':') with
      | _ :: t => (matchWsDotPlus t).map (fun g2 => (g1, g2))
      | [] => none

/-- Candidate splits for a greedy character-class quantifier with at least
`minLen` repetitions: all prefixes of the maximal run, longest first. -/
def classSplitsGe (f : Char → Bool) (minLen : Nat) (l : List Char) : List (List Char × List Char) :=
  let n := (l.takeWhile f).length
  (List.range (n + 1 - minLen)).map (fun k => (l.take (n - k), l.drop (n - k)))

/-- `c` is in `[\w-]`. -/
def wordDash (c : Char) : Bool := isWordChar c || c = '-'

/-- `c` is in `[\s-]`. -/
def wsDash (c : Char) : Bool := jsWs c || c = '-'

/-- The `raids?` tail of a tier phrase: greedy optional `s`, both candidates
in backtracking priority order, accumulating the consumed text onto `acc`. -/
def raidsTailSplits (acc : List Char) (l : List Char) : List (List Char × List Char) :=
  (match matchLitCI "raids".data l with
   | some (x, r) => [(acc ++ x, r)]
   | none => []) ++
  (match matchLitCI "raid".data l with
   | some (x, r) => [(acc ++ x, r)]
   | none => [])

/-- All ways (in backtracking priority order) to match the capture
`([\w-]+[\s-]*star[\s-]*(?:shadow\s+)?raids?)` (case-insensitive) at the start
of `l`, as `(capturedText, rest)` pairs. -/
def tierPhraseSplits (l : List Char) : List (List Char × List Char) :=
  (classSplitsGe wordDash 1 l).flatMap (fun p1 =>
    (classSplitsGe wsDash 0 p1.2).flatMap (fun p2 =>
      match matchLitCI "star".data p2.2 with
      | none => []
      | some (st, r3) =>
        (classSplitsGe wsDash 0 r3).flatMap (fun p4 =>
          let withShadow :=
            match matchLitCI "shadow".data p4.2 with
            | some (sh, r5) =>
              (classSplitsGe jsWs 1 r5).flatMap (fun p6 =>
                raidsTailSplits (p1.1 ++ p2.1 ++ st ++ p4.1 ++ sh ++ p6.1) p6.2)
            | none => []
          withShadow ++ raidsTailSplits (p1.1 ++ p2.1 ++ st ++ p4.1) p4.2)))

/-- Leftmost-first matching of the unanchored capture
`([\w-]+[\s-]*star[\s-]*(?:shadow\s+)?raids?)` (case-insensitive): group 1 of
`directMatch` in the section traversal. -/
def tierPhraseScan : List Char → Option (List Char)
  | [] => none
  | l@(_ :: t) =>
    match (tierPhraseSplits l).head? with
    | some p => some p.1
    | none => tierPhraseScan t

/-- Anchored match of
`appearing in\s+([\w-]+[\s-]*star[\s-]*(?:shadow\s+)?raids?)\s*\((day)\)`
(case-insensitive) at the start of `l`: `(group1, capturedDayName)`. -/
def appearingParensAt (l : List Char) : Option (List Char × List Char) :=
  match matchLitCI "appearing in".data l with
  | none => none
  | some (_, r1) =>
    (classSplitsGe jsWs 1 r1).findSome? (fun p2 =>
      (tierPhraseSplits p2.2).findSome? (fun p3 =>
        (classSplitsGe jsWs 0 p3.2).findSome? (fun p4 =>
          match p4.2 with
          | '(' :: r5 =>
            match matchDayName r5 with
            | some (day, r6) =>
              match r6 with
              | ')' :: _ => some (p3.1, day)
              | _ => none
            | none => none
          | _ => none)))

/-- Leftmost match of the `appearing in … (day)` pattern anywhere in `l`. -/
def appearingParensScan : List Char → Option (List Char × List Char)
  | [] => appearingParensAt []
  | l@(_ :: t) =>
    match appearingParensAt l with
    | some r => some r
    | none => appearingParensScan t

/-- Anchored match of `appearing in\s+([\w-]+)[\s-]*raids?` (case-insensitive)
at the start of `l`: group 1. -/
def appearingTypeAt (l : List Char) : Option (List Char) :=
  match matchLitCI "appearing in".data l with
  | none => none
  | some (_, r1) =>
    (classSplitsGe jsWs 1 r1).findSome? (fun p2 =>
      (classSplitsGe wordDash 1 p2.2).findSome? (fun p3 =>
        (classSplitsGe wsDash 0 p3.2).findSome? (fun p4 =>
          if (ciPrefixL "raid".data p4.2).isSome then some p3.1 else none)))

/-- Leftmost match of `appearing in\s+([\w-]+)[\s-]*raids?` anywhere in `l`. -/
def appearingTypeScan : List Char → Option (List Char)
  | [] => appearingTypeAt []
  | l@(_ :: t) =>
    match appearingTypeAt l with
    | some g => some g
    | none => appearingTypeScan t

/-! ## HeaderClassifier — `parseRaidHeader` (event.js lines 172–214) -/

/-- The result of a successful header parse. -/
structure RaidHeader where
  raidType : String
  date : String
deriving Repr, DecidableEq

/-- Patterns 2 and 3 of `parseRaidHeader`: the date-only format with context,
then the `Appearing in X-Star Raids (DayName)` format. -/
def parseRaidHeaderAux3 (l : List Char) : Option RaidHeader :=
  match appearingParensScan l with
  | some (g1, day) => some ⟨jsTrim ⟨g1⟩, jsTrim ⟨day⟩⟩
  | none => none

/-- Pattern 2 of `parseRaidHeader`: a header starting with the bare date
pattern, usable only when a (JS-truthy) context raid type is supplied. -/
def parseRaidHeaderAux2 (l : List Char) (contextRaidType : Option String) : Option RaidHeader :=
  match matchDateAt l, contextRaidType with
  | some (m, _), some ctx =>
    if ctx = "" then parseRaidHeaderAux3 l else some ⟨ctx, jsTrim ⟨m⟩⟩
  | _, _ => parseRaidHeaderAux3 l

/-- `parseRaidHeader(headerText, contextRaidType)`: ordered attempt of the
`"Type: Date"`, date-only and `"Appearing in … (Day)"` patterns. -/
def parseRaidHeader (headerText : String) (contextRaidType : Option String) : Option RaidHeader :=
  let l := headerText.data
  match matchTypeColonDate l with
  | some (g1, g2) =>
    if testDateAnywhere g2 then some ⟨jsTrim ⟨g1⟩, jsTrim ⟨g2⟩⟩
    else parseRaidHeaderAux2 l contextRaidType
  | none => parseRaidHeaderAux2 l contextRaidType

/-! ## Data model (spec §3) -/

/-- A boss roster entry. -/
structure Boss where
  name : String
  image : String
  canBeShiny : Bool
  raidType : Option String
deriving Repr, DecidableEq

/-- A raid-hour window attached to a schedule day. -/
structure RaidHourWindow where
  time : String
  bosses : List Boss
deriving Repr, DecidableEq

/-- One per-date schedule entry. -/
structure ScheduleDay where
  date : String
  bosses : List Boss
  raidHours : List RaidHourWindow
  bonuses : List String
deriving Repr, DecidableEq

/-- The record assembled by the extraction engine. -/
structure EventData where
  raidSchedule : List ScheduleDay
  raidbattles : List Boss
deriving Repr, DecidableEq

/-- The transient per-parse context (`globalInfo` in `get`). -/
structure GlobalInfo where
  raidHourTime : Option String
  raidHourSectionId : Option String
  raidTypesWithRaidHour : List String
  specialNotes : List String
deriving Repr, DecidableEq

/-! ## Document model

Following the spec's design note, the document is an ordered sequence of
typed nodes.  A `pkmn-list-flex` node carries its direct `.pkmn-list-item`
children as `BossItem`s. -/

/-- One `.pkmn-list-item` child: its optional `.pkmn-name` text, optional
image `src`, and whether a `.shiny-icon` child is present. -/
structure BossItem where
  nameElem : Option String
  imageSrc : Option String
  hasShinyIcon : Bool
deriving Repr, DecidableEq

/-- A document node. -/
structure Node where
  tagName : String
  idAttr : String
  className : String
  textContent : String
  bossItems : List BossItem
deriving Repr, DecidableEq

/-! ## BossEntryParser / RosterListParser (event.js lines 219–242) -/

/-- `parseBossFromElement`: requires both a name and an image sub-element. -/
def parseBossFromElement (b : BossItem) (raidType : Option String) : Option Boss :=
  match b.nameElem, b.imageSrc with
  | some nm, some img =>
    some ⟨jsTrim nm, img, b.hasShinyIcon, getTierFromRaidType raidType⟩
  | _, _ => none

/-- `parseBossesFromList`: parse every list item, dropping failures. -/
def parseBossesFromList (items : List BossItem) (raidType : Option String) : List Boss :=
  items.filterMap (fun b => parseBossFromElement b raidType)

/-! ## SectionCollector (event.js lines 247–257) -/

/-- `collectSectionElements`: the sibling nodes after the start heading, up to
(not including) the next `H2`. -/
def collectSectionElements (following : List Node) : List Node :=
  following.takeWhile (fun n => n.tagName ≠ "H2")

/-! ## Schedule mutation helpers -/

/-- A fresh schedule entry for `date`. -/
def emptyDay (date : String) : ScheduleDay := ⟨date, [], [], []⟩

/-- Find-or-create: append a fresh entry for `date` unless one exists. -/
def ensureDay (sched : List ScheduleDay) (date : String) : List ScheduleDay :=
  if sched.any (fun e => e.date = date) then sched else sched ++ [emptyDay date]

/-- Apply `f` to the first entry with the given date (the entry `find`
returns and the scraper mutates in place). -/
def updateFirstDay (key : String) (f : ScheduleDay → ScheduleDay) : List ScheduleDay → List ScheduleDay
  | [] => []
  | d :: rest => if d.date = key then f d :: rest else d :: updateFirstDay key f rest

/-- Push `b` unless a boss of the same name is present. -/
def addBossDedup (bosses : List Boss) (b : Boss) : List Boss :=
  if bosses.any (fun e => e.name = b.name) then bosses else bosses ++ [b]

/-- Push each new boss in order, deduplicating by name. -/
def addBossesDedup (bosses newBosses : List Boss) : List Boss :=
  newBosses.foldl addBossDedup bosses

/-! ## Raid-hour text matchers (event.js lines 333, 339, 479) -/

/-- `c` is in `[\d:]`. -/
def digitColon (c : Char) : Bool := c.isDigit || c = ':'

/-- Anchored `[ap]\.m\.` (case-insensitive): `(consumed, rest)`. -/
def matchAmPmStrict (l : List Char) : Option (List Char × List Char) :=
  match l with
  | a :: '.' :: m :: '.' :: rest =>
    if (a.toLower = 'a' || a.toLower = 'p') && m.toLower = 'm' then
      some (a :: '.' :: m :: '.' :: [], rest)
    else none
  | _ => none

/-- Anchored `[ap]\.?m\.?` (case-insensitive), greedy optional dots:
`(consumed, rest)`.  The optional-dot alternatives are deterministic here
because a skipped dot can never be matched by the following `\s+` or
pattern end. -/
def matchAmPmTolerant (l : List Char) : Option (List Char × List Char) :=
  match l with
  | a :: rest =>
    if a.toLower = 'a' || a.toLower = 'p' then
      let (dot1, r1) :=
        match rest with
        | '.' :: r => ([('.' : Char)], r)
        | _ => (([] : List Char), rest)
      match r1 with
      | m :: r2 =>
        if m.toLower = 'm' then
          let (dot2, r3) :=
            match r2 with
            | '.' :: r => ([('.' : Char)], r)
            | _ => (([] : List Char), r2)
          some (a :: dot1 ++ m :: dot2, r3)
        else none
      | [] => none
    else none
  | [] => none

/-- Anchored match of
`from ([\d:]+\s+[ap]\.m\.\s+to\s+[\d:]+\s+[ap]\.m\.)` (case-insensitive):
group 1.  All adjacent pieces are over disjoint character classes, so greedy
maximal-munch is exact. -/
def timeStrictAt (l : List Char) : Option (List Char) :=
  match matchLitCI "from ".data l with
  | none => none
  | some (_, r1) =>
    let (d1, r2) := takeRun digitColon r1
    if d1 = [] then none else
    let (w1, r3) := takeRun jsWs r2
    if w1 = [] then none else
    match matchAmPmStrict r3 with
    | none => none
    | some (ap1, r4) =>
      let (w2, r5) := takeRun jsWs r4
      if w2 = [] then none else
      match matchLitCI "to".data r5 with
      | none => none
      | some (t, r6) =>
        let (w3, r7) := takeRun jsWs r6
        if w3 = [] then none else
        let (d2, r8) := takeRun digitColon r7
        if d2 = [] then none else
        let (w4, r9) := takeRun jsWs r8
        if w4 = [] then none else
        match matchAmPmStrict r9 with
        | none => none
        | some (ap2, _) =>
          some (d1 ++ w1 ++ ap1 ++ w2 ++ t ++ w3 ++ d2 ++ w4 ++ ap2)

/-- Leftmost match of the strict time pattern anywhere in `l`. -/
def timeStrictScan : List Char → Option (List Char)
  | [] => none
  | l@(_ :: t) =>
    match timeStrictAt l with
    | some g => some g
    | none => timeStrictScan t

/-- Anchored match of the tolerant variant
`from ([\d:]+\s+[ap]\.?m\.?\s+to\s+[\d:]+\s+[ap]\.?m\.?)`: group 1. -/
def timeTolerantAt (l : List Char) : Option (List Char) :=
  match matchLitCI "from ".data l with
  | none => none
  | some (_, r1) =>
    let (d1, r2) := takeRun digitColon r1
    if d1 = [] then none else
    let (w1, r3) := takeRun jsWs r2
    if w1 = [] then none else
    match matchAmPmTolerant r3 with
    | none => none
    | some (ap1, r4) =>
      let (w2, r5) := takeRun jsWs r4
      if w2 = [] then none else
      match matchLitCI "to".data r5 with
      | none => none
      | some (t, r6) =>
        let (w3, r7) := takeRun jsWs r6
        if w3 = [] then none else
        let (d2, r8) := takeRun digitColon r7
        if d2 = [] then none else
        let (w4, r9) := takeRun jsWs r8
        if w4 = [] then none else
        match matchAmPmTolerant r9 with
        | none => none
        | some (ap2, _) =>
          some (d1 ++ w1 ++ ap1 ++ w2 ++ t ++ w3 ++ d2 ++ w4 ++ ap2)

/-- Leftmost match of the tolerant time pattern anywhere in `l`. -/
def timeTolerantScan : List Char → Option (List Char)
  | [] => none
  | l@(_ :: t) =>
    match timeTolerantAt l with
    | some g => some g
    | none => timeTolerantScan t

/-- Does `(?:\s+from|\s*\.)` (the continuation of the `featuring` pattern,
case-insensitive) match at the start of `l`? -/
def featuringContTest (l : List Char) : Bool :=
  let (w, r) := takeRun jsWs l
  (w ≠ [] && (ciPrefixL "from".data r).isSome) ||
    (match r with
     | '.' :: _ => true
     | _ => false)

/-- Anchored match of `featuring\s+([^.]+?)(?:\s+from|\s*\.)`
(case-insensitive): lazy group 1, shortest expansion first, under a greedy
(longest-first) leading `\s+`. -/
def featuringAt (l : List Char) : Option (List Char) :=
  match matchLitCI "featuring".data l with
  | none => none
  | some (_, r1) =>
    (classSplitsGe jsWs 1 r1).findSome? (fun p2 =>
      let maxG := p2.2.takeWhile (fun c => c ≠ '.')
      (List.range maxG.length).findSome? (fun k =>
        if featuringContTest (p2.2.drop (k + 1)) then some (p2.2.take (k + 1)) else none))

/-- Leftmost match of the `featuring` pattern anywhere in `l`. -/
def featuringScan : List Char → Option (List Char)
  | [] => none
  | l@(_ :: t) =>
    match featuringAt l with
    | some g => some g
    | none => featuringScan t

/-- Anchored match of the separator `\s+and\s+` (case-sensitive, as in the
split regex `/,|\s+and\s+/`): the remainder after the (greedy) separator. -/
def matchAndSep (l : List Char) : Option (List Char) :=
  let (w1, r1) := takeRun jsWs l
  if w1 = [] then none else
  match r1 with
  | 'a' :: 'n' :: 'd' :: r2 =>
    let (w2, r3) := takeRun jsWs r2
    if w2 = [] then none else some r3
  | _ => none

/-- `String.prototype.split(/,|\s+and\s+/)`: fuelled scan (the fuel is an
upper bound on the number of characters still to be consumed). -/
def splitSepGo : Nat → List Char → List (List Char)
  | 0, _ => [[]]
  | _ + 1, [] => [[]]
  | n + 1, c :: rest =>
    if c = ',' then [] :: splitSepGo n rest
    else
      match matchAndSep (c :: rest) with
      | some r => [] :: splitSepGo n r
      | none =>
        match splitSepGo n rest with
        | seg :: segs => (c :: seg) :: segs
        | [] => [[c]]

/-- Split on `,` or `\s+and\s+`. -/
def splitSep (l : List Char) : List (List Char) :=
  splitSepGo l.length l

/-- `name.replace(/\s*\(.*\)/, '')`, the anchored-at-one-position step:
the remainder after a match starting here, if any.  `.*\)` reaches the last
`)` on the same line as the `(`. -/
def stripParenAt (l : List Char) : Option (List Char) :=
  match l.dropWhile jsWs with
  | '(' :: r2 =>
    let line := r2.takeWhile jsDot
    match line.reverse.findIdx? (fun c => c = ')') with
    | some k => some (r2.drop (line.length - k))
    | none => none
  | _ => none

/-- `name.replace(/\s*\(.*\)/, '')`: remove the leftmost match, keep the rest. -/
def stripParenGo : List Char → List Char
  | [] => []
  | c :: rest =>
    match stripParenAt (c :: rest) with
    | some after => after
    | none => c :: stripParenGo rest

/-- `name.replace(/\s*\(.*\)/, '')` on `String`. -/
def stripParenFirst (s : String) : String :=
  ⟨stripParenGo s.data⟩

/-! ## Post-processing passes (event.js lines 58–96 and 526–546) -/

/-- Does this boss match one of the recorded raid-hour tier keywords?
`boss.raidType ? boss.raidType.toLowerCase() : ''`, then a substring check
per keyword. -/
def matchesKeyword (kws : List String) (b : Boss) : Bool :=
  let btl := lowerStr (b.raidType.getD "")
  kws.any (fun kw => strIncludes btl kw)

/-- The general raid-hour distribution pass run at the end of
`processRaidsSection` (lines 526–546): for every day with zero windows,
filter its bosses by the recorded tier keywords and attach one window when
the filter is non-empty. -/
def distributeGeneral (gi : GlobalInfo) (sched : List ScheduleDay) : List ScheduleDay :=
  match gi.raidHourTime with
  | some t =>
    if t = "" then sched
    else
      sched.map (fun entry =>
        if entry.raidHours.length = 0 then
          let raidHourBosses := entry.bosses.filter (matchesKeyword gi.raidTypesWithRaidHour)
          if raidHourBosses.length > 0 then
            { entry with raidHours := entry.raidHours ++ [⟨t, raidHourBosses⟩] }
          else entry
        else entry)
  | none => sched

/-- Is this boss's stored tier label a five-star one in the sense of the
`get`-level pass (lines 63–66): `'tier 5'` or `'five'` as a substring? -/
def isFiveStarBoss (b : Boss) : Bool :=
  let tl := lowerStr (b.raidType.getD "")
  strIncludes tl "tier 5" || strIncludes tl "five"

/-- The `get`-level raid-hour distribution pass (lines 58–76), applied when
the recorded time came from the `appearing-in-5-star-raids` section: for each
day with zero windows, attach one window holding the bosses whose tier label
contains `'tier 5'` or `'five'`, when any. -/
def distributeFiveStar (t : String) (sched : List ScheduleDay) : List ScheduleDay :=
  sched.map (fun day =>
    if day.raidHours.length = 0 then
      let fiveStarBosses := day.bosses.filter isFiveStarBoss
      if fiveStarBosses.length > 0 then
        { day with raidHours := day.raidHours ++ [⟨t, fiveStarBosses⟩] }
      else day
    else day)

/-- The bonus-note distribution pass (lines 80–96): attach each recorded note
to every day one of whose boss names (or that name with its parenthetical
stripped) occurs in the note, case-insensitively. -/
def distributeBonuses (notes : List String) (sched : List ScheduleDay) : List ScheduleDay :=
  notes.foldl (fun sched note =>
    let noteLower := lowerStr note
    sched.map (fun day =>
      let relevantBonus := day.bosses.any (fun boss =>
        strIncludes noteLower (lowerStr boss.name) ||
          strIncludes noteLower (lowerStr (stripParenFirst boss.name)))
      if relevantBonus then { day with bonuses := day.bonuses ++ [note] } else day)) sched

/-! ## Day-based traversal — `processDayRaidSection` (event.js lines 263–370) -/

/-- The mutable locals of `processDayRaidSection`'s element loop. -/
structure DaySt where
  currentRaidType : Option String
  inRaidHourSection : Bool
  raidHourTime : Option String
  raidHourBossNames : List String
deriving Repr, DecidableEq

/-- The H3 handler of `processDayRaidSection`'s loop (lines 287–313):
updates the raid-type / raid-hour state. -/
def dayStepH3 (st : DaySt) (el : Node) : DaySt :=
  if el.tagName = "H3" && el.textContent ≠ "" then
    let h3Text := jsTrim el.textContent
    let h3Lower := lowerStr h3Text
    if strIncludes h3Lower "raid hour" then
      { st with inRaidHourSection := true, currentRaidType := none }
    else if strIncludes h3Lower "star" && strIncludes h3Lower "raids" then
      { st with currentRaidType := some h3Text, inRaidHourSection := false }
    else if strIncludes h3Lower "primal" && strIncludes h3Lower "raids" then
      { st with currentRaidType := some "Primal Raids", inRaidHourSection := false }
    else if strIncludes h3Lower "mega" && strIncludes h3Lower "raids" then
      { st with currentRaidType := some "Mega Raids", inRaidHourSection := false }
    else if strIncludes h3Lower "shadow" && strIncludes h3Lower "raids" then
      { st with currentRaidType := some "Shadow Raids", inRaidHourSection := false }
    else st
  else st

/-- The roster-list handler of `processDayRaidSection`'s loop (lines
316–324). -/
def dayStepList (st : DaySt) (baseDate : String) (ev : EventData) (el : Node) : EventData :=
  match st.currentRaidType with
  | some rt =>
    if el.className = "pkmn-list-flex" && !st.inRaidHourSection then
      { ev with raidSchedule :=
          (updateFirstDay baseDate
            (fun d => { d with bosses :=
              (addBossesDedup d.bosses (parseBossesFromList el.bossItems (some rt))) })
            ev.raidSchedule) }
    else ev
  | none => ev

/-- The raid-hour paragraph handler of `processDayRaidSection`'s loop (lines
327–351). -/
def dayStepP (st : DaySt) (el : Node) : DaySt :=
  if el.tagName = "P" && st.inRaidHourSection then
    let text := jsTrim el.textContent
    let textLower := lowerStr text
    if strIncludes textLower "raid hour" then
      let st :=
        match timeTolerantScan text.data with
        | some g => { st with raidHourTime := some (String.mk g ++ " local time") }
        | none => st
      match featuringScan text.data with
      | some g =>
        { st with raidHourBossNames :=
            ((splitSep g).map (fun nl => jsTrim ⟨nl⟩)).filter (fun s => s ≠ "") }
      | none => st
    else st
  else st

/-- One iteration of `processDayRaidSection`'s `forEach`: the three
successive handlers. -/
def dayStep (baseDate : String) (acc : DaySt × EventData) (el : Node) : DaySt × EventData :=
  let st := dayStepH3 acc.1 el
  (dayStepP st el, dayStepList st baseDate acc.2 el)

/-- The raid-hour entry created after `processDayRaidSection`'s loop (lines
354–369): when a time and at least one featured name were found, attach a
window holding the day's bosses whose names contain a featured name. -/
def dayFinalWindow (baseDate : String) (st : DaySt) (ev : EventData) : EventData :=
  match st.raidHourTime with
  | some t =>
    if t ≠ "" && st.raidHourBossNames.length > 0 then
      { ev with raidSchedule :=
          (updateFirstDay baseDate
            (fun d =>
              let raidHourBosses := d.bosses.filter (fun b =>
                st.raidHourBossNames.any (fun n =>
                  strIncludes (lowerStr b.name) (lowerStr n)))
              if raidHourBosses.length > 0 then
                { d with raidHours := d.raidHours ++ [⟨t, raidHourBosses⟩] }
              else d) ev.raidSchedule) }
    else ev
  | none => ev

/-- `processDayRaidSection(elements, dayHeader, eventData, globalInfo)`.
The `globalInfo` argument is unused by the source function. -/
def processDayRaidSection (elements : List Node) (dayHeader : String)
    (ev : EventData) (_gi : GlobalInfo) : EventData :=
  let baseDate := jsTrim ⟨dayHeader.data.takeWhile (fun c => c ≠ ':')⟩
  let res := elements.foldl (dayStep baseDate)
    (⟨none, false, none, []⟩,
     { ev with raidSchedule := (ensureDay ev.raidSchedule baseDate) })
  dayFinalWindow baseDate res.1 res.2

/-! ## Section-based traversal — `processRaidsSection` (event.js lines 375–547) -/

/-- The mutable locals of `processRaidsSection`'s element loop. -/
structure SectionSt where
  contextRaidType : Option String
  currentDate : Option String
  currentRaidType : Option String
deriving Repr, DecidableEq

/-- Strip a trailing `-star` (the first `replace`, an end-anchored
case-insensitive `-star`, applied to the lowercased text). -/
def replaceDashStarEnd (l : List Char) : List Char :=
  if isPrefixL "rats-".data l.reverse then l.take (l.length - 5) else l

/-- Strip a trailing `\s+star` (regex `/\s+star$/i`): the final `star` plus
the whole whitespace run before it. -/
def replaceWsStarEnd (l : List Char) : List Char :=
  if isPrefixL "rats".data l.reverse then
    let pre := l.take (l.length - 4)
    let preStripped := (pre.reverse.dropWhile jsWs).reverse
    if preStripped.length < pre.length then preStripped else l
  else l

/-- `base.charAt(0).toUpperCase() + base.slice(1)`. -/
def capFirst (s : String) : String :=
  match s.data with
  | [] => ""
  | c :: rest => ⟨c.toUpper :: rest⟩

/-- The context-update branch of the section traversal's H3 handler (lines
404–445): reached when the heading is not a date header. -/
def updateContext (st : SectionSt) (h3Text : String) : SectionSt :=
  let st := { st with currentDate := none, currentRaidType := none }
  let h3Lower := lowerStr h3Text
  if strIncludes h3Lower "appearing in" && strIncludes h3Lower "raids" then
    match appearingTypeScan h3Text.data with
    | some g1 =>
      let base := jsTrim ⟨replaceWsStarEnd (replaceDashStarEnd (lowerStr ⟨g1⟩).data)⟩
      { st with contextRaidType := some (capFirst base ++ "-Star Raids") }
    | none => st
  else if strIncludes h3Lower "star" && strIncludes h3Lower "raids" then
    match tierPhraseScan h3Text.data with
    | some g1 => { st with contextRaidType := some (jsTrim ⟨g1⟩) }
    | none => st
  else if strIncludes h3Lower "primal" && strIncludes h3Lower "raids" then
    { st with contextRaidType := some "Primal Raids" }
  else if strIncludes h3Lower "mega" && strIncludes h3Lower "raids" then
    { st with contextRaidType := some "Mega Raids" }
  else if strIncludes h3Lower "shadow" && strIncludes h3Lower "raids"
      && !(strIncludes h3Lower "star") then
    { st with contextRaidType := some "Shadow Raids" }
  else st

/-- The H3 handler of the section traversal (lines 383–446). -/
def sectionStepH3 (st : SectionSt) (ev : EventData) (el : Node) : SectionSt × EventData :=
  if el.tagName = "H3" && el.textContent ≠ "" then
    match parseRaidHeader (jsTrim el.textContent) st.contextRaidType with
    | some hdr =>
      ({ st with currentDate := some hdr.date, currentRaidType := some hdr.raidType },
       { ev with raidSchedule := ensureDay ev.raidSchedule hdr.date })
    | none => (updateContext st (jsTrim el.textContent), ev)
  else (st, ev)

/-- The roster-list handler of the section traversal (lines 449–468). -/
def sectionStepList (st : SectionSt) (ev : EventData) (el : Node) : EventData :=
  if el.className = "pkmn-list-flex" then
    match st.currentDate with
    | some date =>
      let bossData := parseBossesFromList el.bossItems st.currentRaidType
      { ev with raidSchedule :=
          (updateFirstDay date
            (fun d => { d with bosses := addBossesDedup d.bosses bossData }) ev.raidSchedule) }
    | none =>
      let bosses := parseBossesFromList el.bossItems st.contextRaidType
      { ev with raidbattles := addBossesDedup ev.raidbattles bosses }
  else ev

/-- Append `kw` to the recorded keywords when `cond` holds and it is absent. -/
def pushKeyword (gi : GlobalInfo) (kw : String) (cond : Bool) : GlobalInfo :=
  if cond && !(gi.raidTypesWithRaidHour.contains kw) then
    { gi with raidTypesWithRaidHour := gi.raidTypesWithRaidHour ++ [kw] }
  else gi

/-- The raid-hour paragraph handler of the section traversal (lines
471–507).  Note the case-sensitive `includes('Raid Hour')` guard. -/
def sectionStepRaidHour (gi : GlobalInfo) (sectionId : String) (el : Node) : GlobalInfo :=
  if el.tagName = "P" && strIncludes el.textContent "Raid Hour" then
    let raidHourText := jsTrim el.textContent
    let raidHourLower := lowerStr raidHourText
    let gi := { gi with raidHourSectionId := some sectionId }
    let gi :=
      match timeStrictScan raidHourText.data with
      | some g => { gi with raidHourTime := some (String.mk g ++ " local time") }
      | none => gi
    let gi := pushKeyword gi "five-star"
      (strIncludes raidHourLower "five-star" || strIncludes raidHourLower "5-star")
    let gi := pushKeyword gi "shadow" (strIncludes raidHourLower "shadow")
    let gi := pushKeyword gi "mega" (strIncludes raidHourLower "mega")
    pushKeyword gi "primal" (strIncludes raidHourLower "primal")
  else gi

/-- The bonus-note paragraph handler of the section traversal (lines
510–523). -/
def sectionStepBonus (gi : GlobalInfo) (el : Node) : GlobalInfo :=
  if el.tagName = "P" then
    let noteTextLower := lowerStr el.textContent
    if strIncludes noteTextLower "fusion energy" ||
        strIncludes noteTextLower "mega energy" ||
        strIncludes noteTextLower "primal energy" ||
        strIncludes noteTextLower "adventure effect move" then
      let noteText := jsTrim el.textContent
      if noteText.length > 10 then
        { gi with specialNotes := gi.specialNotes ++ [noteText] }
      else gi
    else gi
  else gi

/-- One iteration of `processRaidsSection`'s `forEach`: the four successive
handlers of lines 383–523. -/
def sectionStep (sectionId : String) (acc : SectionSt × EventData × GlobalInfo)
    (el : Node) : SectionSt × EventData × GlobalInfo :=
  let p := sectionStepH3 acc.1 acc.2.1 el
  let ev := sectionStepList p.1 p.2 el
  let gi := sectionStepRaidHour acc.2.2 sectionId el
  let gi := sectionStepBonus gi el
  (p.1, ev, gi)

/-- The element loop of `processRaidsSection` (lines 381–524), without the
trailing distribution pass. -/
def processRaidsSectionLoop (elements : List Node) (sectionId : String)
    (ev : EventData) (gi : GlobalInfo) : SectionSt × EventData × GlobalInfo :=
  let st0 : SectionSt :=
    ⟨if sectionId = "appearing-in-5-star-raids" then some "Five-Star Raids" else none,
     none, none⟩
  elements.foldl (sectionStep sectionId) (st0, ev, gi)

/-- `processRaidsSection(elements, sectionId, eventData, globalInfo)`:
the element loop followed immediately by the general raid-hour distribution
pass of lines 526–546. -/
def processRaidsSection (elements : List Node) (sectionId : String)
    (ev : EventData) (gi : GlobalInfo) : EventData × GlobalInfo :=
  let res := processRaidsSectionLoop elements sectionId ev gi
  let ev := res.2.1
  let gi := res.2.2
  (⟨distributeGeneral gi ev.raidSchedule, ev.raidbattles⟩, gi)

/-! ## ExtractionOrchestrator — `get` (event.js lines 13–103), success path -/

/-- `querySelector('h2#' + anchor)` over the flat node sequence. -/
def findH2Idx (doc : List Node) (anchor : String) : Option Nat :=
  doc.findIdx? (fun n => n.tagName = "H2" && n.idAttr = anchor)

/-- `dayPattern.test(h2Text)`: anchored weekday + date test. -/
def dayPatternTest (s : String) : Bool :=
  (matchDateAt s.data).isSome

/-- The `allH2.forEach` loop of lines 47–56: process every `H2` whose trimmed
text matches the day pattern as a day-based section. -/
def foldDayH2 : List Node → EventData × GlobalInfo → EventData × GlobalInfo
  | [], acc => acc
  | n :: rest, (ev, gi) =>
    if n.tagName = "H2" && dayPatternTest (jsTrim n.textContent) then
      foldDayH2 rest (processDayRaidSection (collectSectionElements rest) (jsTrim n.textContent) ev gi, gi)
    else foldDayH2 rest (ev, gi)

/-- One anchored-section block of `get` (lines 33–43): when an `H2` with the
given id exists, run `processRaidsSection` on its collected section. -/
def runRaidsAnchor (doc : List Node) (acc : EventData × GlobalInfo)
    (anchor : String) : EventData × GlobalInfo :=
  match findH2Idx doc anchor with
  | some i => processRaidsSection (collectSectionElements (doc.drop (i + 1))) anchor acc.1 acc.2
  | none => acc

/-- The traversal part of `get` (lines 32–56): the two anchored sections,
then the day-based sections, threading the event data and parse context. -/
def runTraversal (doc : List Node) : EventData × GlobalInfo :=
  foldDayH2 doc
    (runRaidsAnchor doc
      (runRaidsAnchor doc (⟨[], []⟩, ⟨none, none, [], []⟩) "raids")
      "appearing-in-5-star-raids")

/-- The success path of `get` (lines 32–96): traversal, then the
`appearing-in-5-star-raids` raid-hour distribution (lines 58–76), then the
bonus distribution (lines 80–96). -/
def runGet (doc : List Node) : EventData :=
  let r := runTraversal doc
  let ev := r.1
  let gi := r.2
  let ev :=
    match gi.raidHourTime with
    | some t =>
      if t ≠ "" && gi.raidHourSectionId = some "appearing-in-5-star-raids" then
        { ev with raidSchedule := (distributeFiveStar t ev.raidSchedule) }
      else ev
    | none => ev
  { ev with raidSchedule := (distributeBonuses gi.specialNotes ev.raidSchedule) }

/-! ## Fallback path of `get` (event.js lines 105–145)

The backup entry's `extraData` JSON object is modelled by its three fields of
interest; an `Option` field records presence or absence of the key, payloads
are opaque. -/

/-- The extra-data payload of a backup entry: the legacy nested `event`
object (its own key/value fields), or the flattened `raidSchedule` /
`raidbattles` keys. -/
structure ExtraData where
  eventField : Option (List (String × String))
  raidSchedule : Option String
  raidbattles : Option String
deriving Repr, DecidableEq

/-- One entry of the backup array (`event_min.json`). -/
structure BkpEntry where
  eventID : String
  extraData : Option ExtraData
deriving Repr, DecidableEq

/-- The fallback-data object assembled at lines 111–124: the whole legacy
`event` object when the `event` key exists, else whichever flattened keys
exist, in insertion order. -/
def mkFallbackData (ed : ExtraData) : List (String × String) :=
  match ed.eventField with
  | some fs => fs
  | none =>
    (match ed.raidSchedule with
     | some v => [("raidSchedule", v)]
     | none => []) ++
    (match ed.raidbattles with
     | some v => [("raidbattles", v)]
     | none => [])

/-- A record written to the temporary file: `{ id, type, data }`. -/
structure OutRecord where
  outId : String
  outType : String
  data : List (String × String)
deriving Repr, DecidableEq

/-- The catch handler's loop (lines 108–143): the records written, in order.
An entry writes only when its id matches, its extra-data is non-null and the
assembled fallback data has at least one key; the loop always completes. -/
def fallbackHandler (id : String) (bkp : List BkpEntry) : List OutRecord :=
  bkp.foldl (fun acc e =>
    match e.extraData with
    | some ed =>
      if e.eventID = id then
        let fb := mkFallbackData ed
        if fb.length > 0 then acc ++ [⟨id, "event", fb⟩] else acc
      else acc
    | none => acc) []

/-! ## Claim-comparison definitions

Each following definition renders a claim's wording (not the source), for
comparison with the embedded source functions. -/

/-- Claim C1's reading of the `get`-level raid-hour pass: filter each
zero-window day's bosses by the recorded `raidTypesWithRaidHour` keywords
(this is `distributeGeneral` applied at the `get` level) instead of the fixed
`'tier 5'`/`'five'` filter the source uses there. -/
def runGetClaimC1 (doc : List Node) : EventData :=
  let r := runTraversal doc
  let ev := r.1
  let gi := r.2
  let ev :=
    match gi.raidHourTime with
    | some t =>
      if t ≠ "" && gi.raidHourSectionId = some "appearing-in-5-star-raids" then
        { ev with raidSchedule := (distributeGeneral gi ev.raidSchedule) }
      else ev
    | none => ev
  { ev with raidSchedule := (distributeBonuses gi.specialNotes ev.raidSchedule) }

/-- Claim C2's reading of the orchestration: every distribution pass —
including the general keyword pass — executes exactly once, after all
section-based and day-based traversal. -/
def runGetClaimC2 (doc : List Node) : EventData :=
  let ev0 : EventData := ⟨[], []⟩
  let gi0 : GlobalInfo := ⟨none, none, [], []⟩
  let r1 :=
    match findH2Idx doc "raids" with
    | some i =>
      let res := processRaidsSectionLoop (collectSectionElements (doc.drop (i + 1))) "raids" ev0 gi0
      (res.2.1, res.2.2)
    | none => (ev0, gi0)
  let r2 :=
    match findH2Idx doc "appearing-in-5-star-raids" with
    | some i =>
      let res := processRaidsSectionLoop (collectSectionElements (doc.drop (i + 1)))
        "appearing-in-5-star-raids" r1.1 r1.2
      (res.2.1, res.2.2)
    | none => r1
  let r3 := foldDayH2 doc r2
  let ev := r3.1
  let gi := r3.2
  let ev :=
    match gi.raidHourTime with
    | some t =>
      if t ≠ "" && gi.raidHourSectionId = some "appearing-in-5-star-raids" then
        { ev with raidSchedule := (distributeFiveStar t ev.raidSchedule) }
      else ev
    | none => ev
  let ev := { ev with raidSchedule := (distributeGeneral gi ev.raidSchedule) }
  { ev with raidSchedule := (distributeBonuses gi.specialNotes ev.raidSchedule) }

/-- Claim C9's reading of SectionCollector: collection stops at the next
heading of the same or higher level, i.e. for an H2 start at the next H2 *or
H1*. -/
def collectSectionElementsClaimC9 (following : List Node) : List Node :=
  following.takeWhile (fun n => n.tagName ≠ "H2" && n.tagName ≠ "H1")

/-! ## Concrete documents used by counterexamples and witnesses -/

/-- A five-star boss list item. -/
def groudonItem : BossItem := ⟨some "Groudon", some "g.png", false⟩

/-- A mega boss list item. -/
def beedrillItem : BossItem := ⟨some "Beedrill", some "b.png", false⟩

/-- A second mega boss list item. -/
def gengarItem : BossItem := ⟨some "Gengar", some "ge.png", false⟩

/-- A three-star boss list item. -/
def machopItem : BossItem := ⟨some "Machop", some "m.png", false⟩

/-- An `appearing-in-5-star-raids` section whose raid-hour paragraph names no
tier keyword at all (so `raidTypesWithRaidHour` stays empty) over a scheduled
day holding one Tier 5 boss. -/
def docFiveStarNoKw : List Node :=
  [⟨"H2", "appearing-in-5-star-raids", "", "Appearing in 5-Star Raids", []⟩,
   ⟨"H3", "", "", "Five-Star Raids: Monday, May 5", []⟩,
   ⟨"DIV", "", "pkmn-list-flex", "", [groudonItem]⟩,
   ⟨"P", "", "", "Raid Hour from 6:00 p.m. to 7:00 p.m.", []⟩]

/-- A `raids` section recording a raid-hour time and the `mega` keyword over
a scheduled day, followed by a day-based section that adds a second mega boss
to the same date. -/
def docRaidsThenDay : List Node :=
  [⟨"H2", "raids", "", "Raids", []⟩,
   ⟨"H3", "", "", "Mega Raids: Monday, May 5", []⟩,
   ⟨"DIV", "", "pkmn-list-flex", "", [beedrillItem]⟩,
   ⟨"P", "", "", "Raid Hour from 6:00 p.m. to 7:00 p.m. in Mega Raids", []⟩,
   ⟨"H2", "", "", "Monday, May 5: Kanto", []⟩,
   ⟨"H3", "", "", "Mega Raids", []⟩,
   ⟨"DIV", "", "pkmn-list-flex", "", [gengarItem]⟩]

/-- The five-star document extended with a static (no active date) roster, so
the output has both a schedule day with a window and a `raidbattles` entry. -/
def docWithStatic : List Node :=
  [⟨"H2", "appearing-in-5-star-raids", "", "Appearing in 5-Star Raids", []⟩,
   ⟨"H3", "", "", "Five-Star Raids: Monday, May 5", []⟩,
   ⟨"DIV", "", "pkmn-list-flex", "", [groudonItem]⟩,
   ⟨"P", "", "", "Raid Hour from 6:00 p.m. to 7:00 p.m.", []⟩,
   ⟨"H3", "", "", "Appearing in 3-Star Raids", []⟩,
   ⟨"DIV", "", "pkmn-list-flex", "", [machopItem]⟩]

/-- The Tier 5 boss as parsed from `docFiveStarNoKw`. -/
def groudonBoss : Boss := ⟨"Groudon", "g.png", false, some "Tier 5"⟩

/-- The window the `get`-level pass attaches on `docWithStatic`. -/
def groudonWindow : RaidHourWindow := ⟨"6:00 p.m. to 7:00 p.m. local time", [groudonBoss]⟩

/-- The schedule day `runGet docWithStatic` produces. -/
def groudonDay : ScheduleDay := ⟨"Monday, May 5", [groudonBoss], [groudonWindow], []⟩

/-- The static boss `runGet docWithStatic` places in `raidbattles`. -/
def machopBoss : Boss := ⟨"Machop", "m.png", false, some "Tier 3"⟩

/-- Siblings containing an H1 before the next H2. -/
def siblingsWithH1 : List Node :=
  [⟨"P", "", "", "one", []⟩,
   ⟨"H1", "", "", "big heading", []⟩,
   ⟨"P", "", "", "two", []⟩,
   ⟨"H2", "", "", "next section", []⟩,
   ⟨"P", "", "", "three", []⟩]

/-! ## Helper lemmas -/

theorem map_eq_self_of_mem {α : Type} (l : List α) (f : α → α)
    (h : ∀ x ∈ l, f x = x) : l.map f = l := by
  induction l with
  | nil => rfl
  | cons a t ih =>
    simp only [List.map_cons, h a (List.mem_cons_self a t)]
    rw [ih (fun x hx => h x (List.mem_cons_of_mem a hx))]

theorem tierOpts_no_fivestar :
    ∀ v ∈ tierOpts, strIncludes (lowerStr (v.getD "")) "five-star" = false := by
  decide

/-! ## Claim theorems -/

/-- Claim C10: `parseRaidHeader` maps `"Five-Star Raids: Tuesday, November
11"` to raid type `"Five-Star Raids"` with date `"Tuesday, November 11"`, and
`"Appearing in 5-Star Raids (Saturday)"` to raid type `"5-Star Raids"` with
the bare weekday `"Saturday"` as date, for any contextual raid type. -/
theorem claimC10_parseRaidHeader_examples (ctx : Option String) :
    parseRaidHeader "Five-Star Raids: Tuesday, November 11" ctx =
      some ⟨"Five-Star Raids", "Tuesday, November 11"⟩ ∧
    parseRaidHeader "Appearing in 5-Star Raids (Saturday)" ctx =
      some ⟨"5-Star Raids", "Saturday"⟩ := by
  cases ctx with
  | none => exact ⟨rfl, rfl⟩
  | some s => exact ⟨rfl, rfl⟩

/-- Claim C9 (counterexample): on siblings containing an H1 before the next
H2, `collectSectionElements` keeps collecting past the H1, whereas the
claim's "same or higher level" reading stops there. -/
theorem claimC9_counterexample :
    collectSectionElements siblingsWithH1 ≠ collectSectionElementsClaimC9 siblingsWithH1 ∧
    collectSectionElements siblingsWithH1 = siblingsWithH1.take 3 ∧
    collectSectionElementsClaimC9 siblingsWithH1 = siblingsWithH1.take 1 := by
  refine ⟨by decide, by decide, by decide⟩

/-- Claim C9 (amended): `collectSectionElements` returns exactly the ordered
sibling nodes strictly between the start heading and the next `H2` sibling:
its output is a prefix of the siblings containing no `H2`, and the first
dropped node, if any, is an `H2` (headings of any other level, `H1`
included, do not stop collection). -/
theorem claimC9_collect_stops_only_at_H2 (following : List Node) :
    ∃ rest, following = collectSectionElements following ++ rest ∧
      (∀ n ∈ collectSectionElements following, n.tagName ≠ "H2") ∧
      (rest = [] ∨ ∃ h t, rest = h :: t ∧ h.tagName = "H2") := by
  refine ⟨following.dropWhile (fun n => n.tagName ≠ "H2"), ?_, ?_, ?_⟩
  · unfold collectSectionElements
    exact (List.takeWhile_append_dropWhile _ following).symm
  · intro n hn
    simpa using List.mem_takeWhile_imp hn
  · induction following with
    | nil => exact Or.inl rfl
    | cons a t ih =>
      by_cases ha : a.tagName = "H2"
      · exact Or.inr ⟨a, t, by simp [List.dropWhile_cons, ha], ha⟩
      · simpa [List.dropWhile_cons, ha] using ih

/-- Claim C4: both raid-hour distribution passes leave every day that
already carries at least one window entirely unchanged (date, bosses,
raidHours and bonuses): a window is only ever attached to a day whose
`raidHours` is empty when the pass runs. -/
theorem claimC4_passes_skip_nonempty_days (gi : GlobalInfo) (t : String)
    (sched : List ScheduleDay) (i : Nat) (d : ScheduleDay)
    (hi : sched[i]? = some d) (hne : d.raidHours ≠ []) :
    (distributeGeneral gi sched)[i]? = some d ∧
    (distributeFiveStar t sched)[i]? = some d := by
  have hlen : ¬ d.raidHours.length = 0 := by
    simpa [List.length_eq_zero] using hne
  have hmap : ∀ (f : ScheduleDay → ScheduleDay), f d = d → (sched.map f)[i]? = some d := by
    intro f hf
    rw [List.getElem?_map, hi, Option.map_some', hf]
  constructor
  · unfold distributeGeneral
    cases gi.raidHourTime with
    | none => exact hi
    | some t' =>
      by_cases ht : t' = ""
      · simpa [ht] using hi
      · simp only [if_neg ht]
        exact hmap _ (by simp [hlen])
  · unfold distributeFiveStar
    exact hmap _ (by simp [hlen])

theorem claimC4_witness :
    (distributeGeneral ⟨some "T", none, ["mega"], []⟩
        [⟨"d", [⟨"A", "i", false, some "Mega"⟩], [⟨"t0", []⟩], ["note"]⟩])[0]? =
      some ⟨"d", [⟨"A", "i", false, some "Mega"⟩], [⟨"t0", []⟩], ["note"]⟩ ∧
    (distributeFiveStar "T"
        [⟨"d", [⟨"A", "i", false, some "Mega"⟩], [⟨"t0", []⟩], ["note"]⟩])[0]? =
      some ⟨"d", [⟨"A", "i", false, some "Mega"⟩], [⟨"t0", []⟩], ["note"]⟩ :=
  claimC4_passes_skip_nonempty_days ⟨some "T", none, ["mega"], []⟩ "T"
    [⟨"d", [⟨"A", "i", false, some "Mega"⟩], [⟨"t0", []⟩], ["note"]⟩]
    0 ⟨"d", [⟨"A", "i", false, some "Mega"⟩], [⟨"t0", []⟩], ["note"]⟩
    (by decide) (by decide)

/-- Claim C3: no tier label the parser can store contains the substring
`five-star`; consequently when `five-star` is the only recorded keyword, the
general raid-hour pass changes nothing. -/
theorem claimC3_fivestar_keyword_never_matches (gi : GlobalInfo)
    (sched : List ScheduleDay)
    (hkw : gi.raidTypesWithRaidHour = ["five-star"])
    (hb : ∀ d ∈ sched, ∀ b ∈ d.bosses, b.raidType ∈ tierOpts) :
    (∀ rt : Option String,
      strIncludes (lowerStr ((getTierFromRaidType rt).getD "")) "five-star" = false) ∧
    distributeGeneral gi sched = sched := by
  refine ⟨fun rt => tierOpts_no_fivestar _ (getTier_mem_tierOpts rt), ?_⟩
  unfold distributeGeneral
  cases htime : gi.raidHourTime with
  | none => rfl
  | some t =>
    by_cases ht : t = ""
    · simp [ht]
    · simp only [if_neg ht]
      apply map_eq_self_of_mem
      intro d hd
      have hfilter : d.bosses.filter (matchesKeyword gi.raidTypesWithRaidHour) = [] := by
        apply List.filter_eq_nil_iff.mpr
        intro b hbm
        have hmem := hb d hd b hbm
        simp [matchesKeyword, hkw, tierOpts_no_fivestar _ hmem]
      by_cases hr : d.raidHours.length = 0 <;> simp [hr, hfilter]

theorem claimC3_witness :
    (∀ rt : Option String,
      strIncludes (lowerStr ((getTierFromRaidType rt).getD "")) "five-star" = false) ∧
    distributeGeneral ⟨some "T", none, ["five-star"], []⟩
        [⟨"d", [⟨"G", "i", false, some "Tier 5"⟩], [], []⟩] =
      [⟨"d", [⟨"G", "i", false, some "Tier 5"⟩], [], []⟩] :=
  claimC3_fivestar_keyword_never_matches ⟨some "T", none, ["five-star"], []⟩
    [⟨"d", [⟨"G", "i", false, some "Tier 5"⟩], [], []⟩] (by decide) (by decide)

/-- Claim C1 (counterexample): on a document whose `appearing-in-5-star-raids`
raid-hour paragraph names no tier keyword, the recorded keyword set is empty,
so the claimed keyword-based pass attaches no window — yet the code's
`get`-level pass attaches one (it filters by the fixed `tier 5` and `five`
substrings, not by `raidTypesWithRaidHour`). -/
theorem claimC1_counterexample :
    runGet docFiveStarNoKw ≠ runGetClaimC1 docFiveStarNoKw ∧
    (runTraversal docFiveStarNoKw).2.raidTypesWithRaidHour = [] ∧
    ((runGet docFiveStarNoKw).raidSchedule.map (fun d => d.raidHours.length)) = [1] ∧
    ((runGetClaimC1 docFiveStarNoKw).raidSchedule.map (fun d => d.raidHours.length)) = [0] := by
  refine ⟨by decide, by decide, by decide, by decide⟩

/-- Claim C1 (amended): when a raid-hour time was recorded from the
`appearing-in-5-star-raids` section, the `get`-level pass visits every day
with zero windows and filters its bosses by the *fixed* predicate "stored
tier label contains `tier 5` or `five` (case-insensitive)" — independently of
`raidTypesWithRaidHour` — attaching exactly one window with the recorded time
and the filtered bosses when the filter is non-empty. -/
theorem claimC1_fixed_tier5_filter (t : String) (sched : List ScheduleDay)
    (i : Nat) (d : ScheduleDay) (hi : sched[i]? = some d)
    (he : d.raidHours = []) :
    ∃ d', (distributeFiveStar t sched)[i]? = some d' ∧
      d'.date = d.date ∧ d'.bosses = d.bosses ∧ d'.bonuses = d.bonuses ∧
      d'.raidHours =
        (if (d.bosses.filter isFiveStarBoss).length = 0 then ([] : List RaidHourWindow)
         else [⟨t, d.bosses.filter isFiveStarBoss⟩]) := by
  unfold distributeFiveStar
  rw [List.getElem?_map, hi, Option.map_some']
  by_cases hf : (d.bosses.filter isFiveStarBoss).length = 0
  · exact ⟨d, by simp [he, hf], rfl, rfl, rfl, by simp [hf, he]⟩
  · refine ⟨{ d with raidHours := d.raidHours ++ [⟨t, d.bosses.filter isFiveStarBoss⟩] },
      ?_, rfl, rfl, rfl, ?_⟩
    · simp [he, Nat.pos_of_ne_zero hf]
    · simp [hf, he]

theorem claimC1_witness :
    ∃ d', (distributeFiveStar "T"
        [⟨"d", [⟨"G", "i", false, some "Tier 5"⟩], [], []⟩])[0]? = some d' ∧
      d'.date = (⟨"d", [⟨"G", "i", false, some "Tier 5"⟩], [], []⟩ : ScheduleDay).date ∧
      d'.bosses = (⟨"d", [⟨"G", "i", false, some "Tier 5"⟩], [], []⟩ : ScheduleDay).bosses ∧
      d'.bonuses = (⟨"d", [⟨"G", "i", false, some "Tier 5"⟩], [], []⟩ : ScheduleDay).bonuses ∧
      d'.raidHours =
        (if (((⟨"d", [⟨"G", "i", false, some "Tier 5"⟩], [], []⟩ : ScheduleDay)).bosses.filter
              isFiveStarBoss).length = 0 then ([] : List RaidHourWindow)
         else [⟨"T", (⟨"d", [⟨"G", "i", false, some "Tier 5"⟩], [], []⟩ : ScheduleDay).bosses.filter
              isFiveStarBoss⟩]) :=
  claimC1_fixed_tier5_filter "T" [⟨"d", [⟨"G", "i", false, some "Tier 5"⟩], [], []⟩]
    0 ⟨"d", [⟨"G", "i", false, some "Tier 5"⟩], [], []⟩ (by decide) (by decide)

/-- Claim C2 (counterexample): the general keyword pass runs at the end of
each section call, *before* day-based traversal — so on a document whose day
section adds a second matching boss to an already-scheduled date, the window
holds only the boss present at section-processing time, while the claimed
run-once-after-all-traversal ordering would hold both. -/
theorem claimC2_counterexample :
    runGet docRaidsThenDay ≠ runGetClaimC2 docRaidsThenDay ∧
    ((runGet docRaidsThenDay).raidSchedule.map
      (fun d => d.raidHours.map (fun w => w.bosses.map Boss.name))) = [[["Beedrill"]]] ∧
    ((runGetClaimC2 docRaidsThenDay).raidSchedule.map
      (fun d => d.raidHours.map (fun w => w.bosses.map Boss.name))) = [[["Beedrill", "Gengar"]]] := by
  refine ⟨by decide, by decide, by decide⟩

/-- Claim C2 (amended): the `appearing-in-5-star-raids` raid-hour pass and
the bonus-note pass each execute exactly once, after all traversal; the
general keyword pass instead executes at the end of every
`processRaidsSection` call (hence up to twice, and before day-based
traversal), not once after all traversal. -/
theorem claimC2_pass_placement (elements : List Node) (sectionId : String)
    (ev : EventData) (gi : GlobalInfo) (doc : List Node) :
    processRaidsSection elements sectionId ev gi =
      (let res := processRaidsSectionLoop elements sectionId ev gi
       ({ res.2.1 with raidSchedule := (distributeGeneral res.2.2 res.2.1.raidSchedule) },
        res.2.2)) ∧
    runGet doc =
      (let r := runTraversal doc
       let ev1 :=
         match r.2.raidHourTime with
         | some t =>
           if t ≠ "" && r.2.raidHourSectionId = some "appearing-in-5-star-raids" then
             { r.1 with raidSchedule := (distributeFiveStar t r.1.raidSchedule) }
           else r.1
         | none => r.1
       { ev1 with raidSchedule := (distributeBonuses r.2.specialNotes ev1.raidSchedule) }) :=
  ⟨rfl, rfl⟩

/-- Claim C8: on fetch failure with a matching backup entry whose flattened
extra-data has only `raidSchedule`, the emitted record's data holds exactly
the `raidSchedule` key and no `raidbattles` key; with no usable backup fields
the handler emits nothing and still completes. -/
theorem claimC8_fallback_flattened (id rs : String) :
    fallbackHandler id [⟨id, some ⟨none, some rs, none⟩⟩] =
      [⟨id, "event", [("raidSchedule", rs)]⟩] ∧
    (∀ r ∈ fallbackHandler id [⟨id, some ⟨none, some rs, none⟩⟩],
      r.data.any (fun p => p.1 = "raidbattles") = false) ∧
    fallbackHandler id [⟨id, some ⟨none, none, none⟩⟩] = [] := by
  refine ⟨by simp [fallbackHandler, mkFallbackData], ?_, by simp [fallbackHandler, mkFallbackData]⟩
  intro r hr
  simp [fallbackHandler, mkFallbackData] at hr
  subst hr
  rfl

/-! ## Invariants of the assembled record (spec §3) -/

/-- Boss names are pairwise distinct. -/
def namesNodup (bs : List Boss) : Prop := (bs.map Boss.name).Nodup

/-- The per-day invariant: unique boss names, classified tiers, and every
window's bosses drawn from the day's own boss list. -/
def InvDay (d : ScheduleDay) : Prop :=
  namesNodup d.bosses ∧ (∀ b ∈ d.bosses, b.raidType ∈ tierOpts) ∧
    ∀ w ∈ d.raidHours, ∀ b ∈ w.bosses, b ∈ d.bosses

/-- The record invariant. -/
def InvEv (ev : EventData) : Prop :=
  (∀ d ∈ ev.raidSchedule, InvDay d) ∧ namesNodup ev.raidbattles ∧
    ∀ b ∈ ev.raidbattles, b.raidType ∈ tierOpts

theorem parseBossFromElement_tierOk (bi : BossItem) (rt : Option String) (b : Boss)
    (h : parseBossFromElement bi rt = some b) : b.raidType ∈ tierOpts := by
  obtain ⟨ne, im, sh⟩ := bi
  cases ne with
  | none => cases im <;> simp [parseBossFromElement] at h
  | some nm =>
    cases im with
    | none => simp [parseBossFromElement] at h
    | some img =>
      simp only [parseBossFromElement, Option.some.injEq] at h
      subst h
      exact getTier_mem_tierOpts rt

theorem parseBossesFromList_tierOk (items : List BossItem) (rt : Option String) :
    ∀ b ∈ parseBossesFromList items rt, b.raidType ∈ tierOpts := by
  intro b hb
  rw [parseBossesFromList, List.mem_filterMap] at hb
  obtain ⟨bi, _, hbi⟩ := hb
  exact parseBossFromElement_tierOk bi rt b hbi

theorem addBossDedup_nodup (bs : List Boss) (b : Boss) (h : namesNodup bs) :
    namesNodup (addBossDedup bs b) := by
  unfold addBossDedup
  split
  · exact h
  · rename_i hany
    unfold namesNodup at h ⊢
    rw [List.map_append, List.map_singleton, List.nodup_append]
    refine ⟨h, List.nodup_singleton _, ?_⟩
    intro x hx hx2
    rw [List.mem_singleton] at hx2
    subst hx2
    apply hany
    rw [List.any_eq_true]
    obtain ⟨e, he, hename⟩ := List.mem_map.mp hx
    exact ⟨e, he, by simp [hename]⟩

theorem addBossDedup_sub (bs : List Boss) (b x : Boss) (h : x ∈ bs) :
    x ∈ addBossDedup bs b := by
  unfold addBossDedup
  split
  · exact h
  · exact List.mem_append_left _ h

theorem addBossDedup_mem (bs : List Boss) (b x : Boss) (h : x ∈ addBossDedup bs b) :
    x ∈ bs ∨ x = b := by
  unfold addBossDedup at h
  split at h
  · exact Or.inl h
  · rcases List.mem_append.mp h with h1 | h1
    · exact Or.inl h1
    · exact Or.inr (List.mem_singleton.mp h1)

theorem addBossesDedup_nodup (new : List Boss) :
    ∀ bs, namesNodup bs → namesNodup (addBossesDedup bs new) := by
  induction new with
  | nil => intro bs h; exact h
  | cons a t ih => intro bs h; exact ih _ (addBossDedup_nodup bs a h)

theorem addBossesDedup_sub (new : List Boss) :
    ∀ bs x, x ∈ bs → x ∈ addBossesDedup bs new := by
  induction new with
  | nil => intro bs x h; exact h
  | cons a t ih => intro bs x h; exact ih _ x (addBossDedup_sub bs a x h)

theorem addBossesDedup_mem (new : List Boss) :
    ∀ bs x, x ∈ addBossesDedup bs new → x ∈ bs ∨ x ∈ new := by
  induction new with
  | nil => intro bs x h; exact Or.inl h
  | cons a t ih =>
    intro bs x h
    rcases ih _ x h with h1 | h1
    · rcases addBossDedup_mem bs a x h1 with h2 | h2
      · exact Or.inl h2
      · exact Or.inr (h2 ▸ List.mem_cons_self a t)
    · exact Or.inr (List.mem_cons_of_mem a h1)

theorem InvDay_addBosses (d : ScheduleDay) (new : List Boss)
    (hd : InvDay d) (hnew : ∀ b ∈ new, b.raidType ∈ tierOpts) :
    InvDay { d with bosses := addBossesDedup d.bosses new } := by
  obtain ⟨h1, h2, h3⟩ := hd
  refine ⟨addBossesDedup_nodup new d.bosses h1, ?_, ?_⟩
  · intro b hb
    rcases addBossesDedup_mem new d.bosses b hb with h | h
    · exact h2 b h
    · exact hnew b h
  · intro w hw b hb
    exact addBossesDedup_sub new d.bosses b (h3 w hw b hb)

theorem InvDay_pushWindow (d : ScheduleDay) (t : String) (p : Boss → Bool)
    (hd : InvDay d) :
    InvDay { d with raidHours := d.raidHours ++ [⟨t, d.bosses.filter p⟩] } := by
  obtain ⟨h1, h2, h3⟩ := hd
  refine ⟨h1, h2, ?_⟩
  intro w hw b hb
  rcases List.mem_append.mp hw with h | h
  · exact h3 w h b hb
  · rw [List.mem_singleton] at h
    subst h
    exact List.mem_of_mem_filter hb

theorem InvDay_pushWindowIf (d : ScheduleDay) (t : String) (p : Boss → Bool)
    (hd : InvDay d) :
    InvDay (if (d.bosses.filter p).length > 0 then
      { d with raidHours := d.raidHours ++ [⟨t, d.bosses.filter p⟩] } else d) := by
  split
  · exact InvDay_pushWindow d t p hd
  · exact hd

theorem InvDay_emptyDay (date : String) : InvDay (emptyDay date) := by
  refine ⟨List.nodup_nil, ?_, ?_⟩ <;> intro x hx <;> simp [emptyDay] at hx

theorem updateFirstDay_forall {P : ScheduleDay → Prop} (key : String)
    (f : ScheduleDay → ScheduleDay) (hf : ∀ d, P d → P (f d)) :
    ∀ sched, (∀ d ∈ sched, P d) → ∀ d ∈ updateFirstDay key f sched, P d := by
  intro sched
  induction sched with
  | nil => intro _ d hd; simp [updateFirstDay] at hd
  | cons a t ih =>
    intro h d hd
    unfold updateFirstDay at hd
    split at hd
    · rcases List.mem_cons.mp hd with rfl | hd
      · exact hf a (h a (List.mem_cons_self a t))
      · exact h d (List.mem_cons_of_mem a hd)
    · rcases List.mem_cons.mp hd with rfl | hd
      · exact h d (List.mem_cons_self d t)
      · exact ih (fun x hx => h x (List.mem_cons_of_mem a hx)) d hd

theorem ensureDay_forall (sched : List ScheduleDay) (date : String)
    (h : ∀ d ∈ sched, InvDay d) : ∀ d ∈ ensureDay sched date, InvDay d := by
  intro d hd
  unfold ensureDay at hd
  split at hd
  · exact h d hd
  · rcases List.mem_append.mp hd with h1 | h1
    · exact h d h1
    · rw [List.mem_singleton] at h1
      subst h1
      exact InvDay_emptyDay date

theorem foldl_inv {α β : Type} (step : β → α → β) (P : β → Prop)
    (hstep : ∀ acc el, P acc → P (step acc el)) :
    ∀ (l : List α) (a : β), P a → P (l.foldl step a) := by
  intro l
  induction l with
  | nil => intro a h; exact h
  | cons x t ih => intro a h; exact ih _ (hstep a x h)

theorem sectionStepH3_inv (st : SectionSt) (ev : EventData) (el : Node)
    (h : InvEv ev) : InvEv (sectionStepH3 st ev el).2 := by
  unfold sectionStepH3
  split
  · split
    · exact ⟨ensureDay_forall _ _ h.1, h.2.1, h.2.2⟩
    · exact h
  · exact h

theorem sectionStepList_inv (st : SectionSt) (ev : EventData) (el : Node)
    (h : InvEv ev) : InvEv (sectionStepList st ev el) := by
  unfold sectionStepList
  split
  · split
    · refine ⟨?_, h.2.1, h.2.2⟩
      exact updateFirstDay_forall _ _
        (fun d hd => InvDay_addBosses d _ hd (parseBossesFromList_tierOk _ _)) _ h.1
    · refine ⟨h.1, addBossesDedup_nodup _ _ h.2.1, ?_⟩
      intro b hb
      rcases addBossesDedup_mem _ _ b hb with h1 | h1
      · exact h.2.2 b h1
      · exact parseBossesFromList_tierOk _ _ b h1
  · exact h

theorem sectionStep_inv (sectionId : String) (acc : SectionSt × EventData × GlobalInfo)
    (el : Node) (h : InvEv acc.2.1) : InvEv (sectionStep sectionId acc el).2.1 :=
  sectionStepList_inv _ _ el (sectionStepH3_inv acc.1 acc.2.1 el h)

theorem processRaidsSectionLoop_inv (elements : List Node) (sectionId : String)
    (ev : EventData) (gi : GlobalInfo) (h : InvEv ev) :
    InvEv (processRaidsSectionLoop elements sectionId ev gi).2.1 := by
  unfold processRaidsSectionLoop
  exact foldl_inv _ (fun acc : SectionSt × EventData × GlobalInfo => InvEv acc.2.1)
    (sectionStep_inv sectionId) elements _ h

theorem distributeGeneral_inv (gi : GlobalInfo) (sched : List ScheduleDay)
    (h : ∀ d ∈ sched, InvDay d) : ∀ d ∈ distributeGeneral gi sched, InvDay d := by
  unfold distributeGeneral
  split
  · split
    · exact h
    · intro d hd
      rw [List.mem_map] at hd
      obtain ⟨a, ha, rfl⟩ := hd
      have hIa := h a ha
      split
      · exact InvDay_pushWindowIf a _ _ hIa
      · exact hIa
  · exact h

theorem distributeFiveStar_inv (t : String) (sched : List ScheduleDay)
    (h : ∀ d ∈ sched, InvDay d) : ∀ d ∈ distributeFiveStar t sched, InvDay d := by
  unfold distributeFiveStar
  intro d hd
  rw [List.mem_map] at hd
  obtain ⟨a, ha, rfl⟩ := hd
  have hIa := h a ha
  split
  · exact InvDay_pushWindowIf a _ _ hIa
  · exact hIa

theorem InvDay_pushBonusIf (d : ScheduleDay) (note : String) (c : Bool)
    (hd : InvDay d) :
    InvDay (if c = true then { d with bonuses := d.bonuses ++ [note] } else d) := by
  split
  · exact ⟨hd.1, hd.2.1, hd.2.2⟩
  · exact hd

theorem distributeBonuses_inv (notes : List String) (sched : List ScheduleDay)
    (h : ∀ d ∈ sched, InvDay d) : ∀ d ∈ distributeBonuses notes sched, InvDay d := by
  unfold distributeBonuses
  refine foldl_inv _ (fun s : List ScheduleDay => ∀ d ∈ s, InvDay d) ?_ notes sched h
  intro acc note hacc d hd
  rw [List.mem_map] at hd
  obtain ⟨a, ha, rfl⟩ := hd
  exact InvDay_pushBonusIf a note _ (hacc a ha)

theorem dayStepList_inv (st : DaySt) (baseDate : String) (ev : EventData) (el : Node)
    (h : InvEv ev) : InvEv (dayStepList st baseDate ev el) := by
  unfold dayStepList
  split
  · split
    · refine ⟨?_, h.2.1, h.2.2⟩
      exact updateFirstDay_forall _ _
        (fun d hd => InvDay_addBosses d _ hd (parseBossesFromList_tierOk _ _)) _ h.1
    · exact h
  · exact h

theorem dayStep_inv (baseDate : String) (acc : DaySt × EventData) (el : Node)
    (h : InvEv acc.2) : InvEv (dayStep baseDate acc el).2 :=
  dayStepList_inv _ baseDate acc.2 el h

theorem dayFinalWindow_inv (baseDate : String) (st : DaySt) (ev : EventData)
    (h : InvEv ev) : InvEv (dayFinalWindow baseDate st ev) := by
  unfold dayFinalWindow
  split
  · split
    · refine ⟨?_, h.2.1, h.2.2⟩
      refine updateFirstDay_forall _ _ ?_ _ h.1
      intro d hd
      exact InvDay_pushWindowIf d _ _ hd
    · exact h
  · exact h

theorem processDayRaidSection_inv (elements : List Node) (dayHeader : String)
    (ev : EventData) (gi : GlobalInfo) (h : InvEv ev) :
    InvEv (processDayRaidSection elements dayHeader ev gi) := by
  unfold processDayRaidSection
  exact dayFinalWindow_inv _ _ _
    (foldl_inv _ (fun acc : DaySt × EventData => InvEv acc.2) (dayStep_inv _) elements _
      ⟨ensureDay_forall _ _ h.1, h.2.1, h.2.2⟩)

theorem foldDayH2_inv (doc : List Node) :
    ∀ acc : EventData × GlobalInfo, InvEv acc.1 → InvEv (foldDayH2 doc acc).1 := by
  induction doc with
  | nil => intro acc h; exact h
  | cons n rest ih =>
    intro acc h
    obtain ⟨ev, gi⟩ := acc
    unfold foldDayH2
    split
    · exact ih _ (processDayRaidSection_inv _ _ ev gi h)
    · exact ih _ h

theorem processRaidsSection_inv (elements : List Node) (sectionId : String)
    (ev : EventData) (gi : GlobalInfo) (h : InvEv ev) :
    InvEv (processRaidsSection elements sectionId ev gi).1 := by
  unfold processRaidsSection
  have hL := processRaidsSectionLoop_inv elements sectionId ev gi h
  exact ⟨distributeGeneral_inv _ _ hL.1, hL.2.1, hL.2.2⟩

theorem runRaidsAnchor_inv (doc : List Node) (acc : EventData × GlobalInfo)
    (anchor : String) (h : InvEv acc.1) : InvEv (runRaidsAnchor doc acc anchor).1 := by
  unfold runRaidsAnchor
  split
  · exact processRaidsSection_inv _ _ _ _ h
  · exact h

theorem runTraversal_inv (doc : List Node) : InvEv (runTraversal doc).1 := by
  have h0 : InvEv (⟨[], []⟩ : EventData) := by
    refine ⟨?_, List.nodup_nil, ?_⟩ <;> intro x hx <;> simp at hx
  exact foldDayH2_inv doc _ (runRaidsAnchor_inv doc _ _ (runRaidsAnchor_inv doc _ _ h0))

theorem runGet_inv (doc : List Node) : InvEv (runGet doc) := by
  unfold runGet
  have hT := runTraversal_inv doc
  have hMid : InvEv (match (runTraversal doc).2.raidHourTime with
      | some t =>
        if t ≠ "" && (runTraversal doc).2.raidHourSectionId = some "appearing-in-5-star-raids" then
          { (runTraversal doc).1 with raidSchedule :=
              (distributeFiveStar t (runTraversal doc).1.raidSchedule) }
        else (runTraversal doc).1
      | none => (runTraversal doc).1) := by
    split
    · split
      · exact ⟨distributeFiveStar_inv _ _ hT.1, hT.2.1, hT.2.2⟩
      · exact hT
    · exact hT
  exact ⟨distributeBonuses_inv _ _ hMid.1, hMid.2.1, hMid.2.2⟩

/-- Claim C5: in the final record, every raid-hour window's bosses are drawn
from the owning day's own boss list — never from another day or from
`raidbattles`. -/
theorem claimC5_window_bosses_subset (doc : List Node) (d : ScheduleDay)
    (w : RaidHourWindow) (b : Boss) (hd : d ∈ (runGet doc).raidSchedule)
    (hw : w ∈ d.raidHours) (hb : b ∈ w.bosses) : b ∈ d.bosses :=
  ((runGet_inv doc).1 d hd).2.2 w hw b hb

theorem claimC5_witness : groudonBoss ∈ groudonDay.bosses :=
  claimC5_window_bosses_subset docWithStatic groudonDay groudonWindow groudonBoss
    (by decide) (by decide) (by decide)

/-- Claim C6: in every final record, no two bosses of the same schedule day
share a name and no two bosses of `raidbattles` share a name — each part
unconditionally, whatever the other container holds. -/
theorem claimC6_names_nodup (doc : List Node) :
    (∀ d ∈ (runGet doc).raidSchedule, (d.bosses.map Boss.name).Nodup) ∧
    ((runGet doc).raidbattles.map Boss.name).Nodup :=
  ⟨fun d hd => ((runGet_inv doc).1 d hd).1, (runGet_inv doc).2.1⟩

theorem claimC6_witness :
    (∀ d ∈ (runGet docWithStatic).raidSchedule, (d.bosses.map Boss.name).Nodup) ∧
    ((runGet docWithStatic).raidbattles.map Boss.name).Nodup :=
  claimC6_names_nodup docWithStatic

/-- Claim C7: `getTierFromRaidType` is total and lands in the closed
seven-label enumeration (or `none`); a phrase holding both `shadow` and
`star` such as `Five-Star Shadow Raids` maps to its star tier; and in every
final record, every boss of every day's roster and every boss of
`raidbattles` carries a `raidType` from that closed enumeration, never raw
free text — each container covered on its own. -/
theorem claimC7_tier_enumeration (s : Option String) (doc : List Node) :
    getTierFromRaidType s ∈ tierOpts ∧
    getTierFromRaidType (some "Five-Star Shadow Raids") = some "Tier 5" ∧
    (∀ d ∈ (runGet doc).raidSchedule, ∀ b ∈ d.bosses, b.raidType ∈ tierOpts) ∧
    (∀ br ∈ (runGet doc).raidbattles, br.raidType ∈ tierOpts) :=
  ⟨getTier_mem_tierOpts s, by decide,
   fun d hd b hb => ((runGet_inv doc).1 d hd).2.1 b hb,
   fun br hbr => (runGet_inv doc).2.2 br hbr⟩

theorem claimC7_witness :
    getTierFromRaidType (some "One-Star Raids") ∈ tierOpts ∧
    getTierFromRaidType (some "Five-Star Shadow Raids") = some "Tier 5" ∧
    (∀ d ∈ (runGet docWithStatic).raidSchedule, ∀ b ∈ d.bosses, b.raidType ∈ tierOpts) ∧
    (∀ br ∈ (runGet docWithStatic).raidbattles, br.raidType ∈ tierOpts) :=
  claimC7_tier_enumeration (some "One-Star Raids") docWithStatic

end ScrapedDuck
